import Mathlib

/-!
Verification development for the link-graph / PageRank analysis script
(`hw2-script.py`).  The Python functions are shallowly embedded here:

* floating-point values are modelled by exact rationals (`ℚ`);
* Python dictionaries keyed by blob names are modelled as total functions
  `String → _` that are only ever read at the keys the script writes
  (the embedding of `page_ranks` initialises every key uniformly, exactly
  as the dict comprehension does on its key set);
* the unbounded `while not converged` loop of `compute_page_rank` is
  embedded as a fuel-indexed recursion `page_rank_loop`; `none` means the
  loop has not finished within the given number of iterations, so the
  Python loop terminates on an input iff some amount of fuel suffices;
* a Python expression that can raise is embedded with `Except`
  (`Blob.download_as_text` for the fetch call, the parse outcome for
  `process_blob_content`);
* the numpy quirk that `np.mean` of an empty list is `nan` — so that
  `nan < tol` is `False` — is modelled by the nonemptiness conjunct of
  `convergence_test`; on a nonempty node list the mean is the real number
  `average_error` and the conjunct is vacuous (`page_rank_loop_py_eq_loop`).
-/

namespace HW2

/-! ### `compute_page_rank` (hw2-script.py lines 30-96) -/

/-- `outbound_counts = { node: len(edges[node]) for node in nodes }`:
the out-degree of a node is the length of its recorded outlink list. -/
def outbound_counts (edges : String → List String) (s : String) : Nat :=
  (edges s).length

/-- One `incoming_links[outlink].append(node)` step of the incoming-link
index construction. -/
def append_incoming (s : String) (acc : String → List String) (t : String) :
    String → List String :=
  fun x => if x = t then acc x ++ [s] else acc x

/-- `incoming_links`: for every node, append it to the entry of each of its
outlinks (`for node in nodes: for outlink in edges[node]: ...append(node)`). -/
def incoming_links (nodes : List String) (edges : String → List String) :
    String → List String :=
  nodes.foldl (fun acc s => (edges s).foldl (append_incoming s) acc) (fun _ => [])

/-- `page_ranks = { node: 1.0 / n for node in nodes }`: the uniform initial
rank vector (`n` is the number of nodes). -/
def init_ranks (n : Nat) : String → ℚ :=
  fun _ => 1 / (n : ℚ)

/-- The inner loop computing `incoming_sum`: starting from `0`, add
`page_ranks[s] / outbound_counts[s]` for every source `s` in the incoming
list whose outbound count is positive; zero-out-degree sources are skipped. -/
def incoming_sum (edges : String → List String) (ranks : String → ℚ)
    (links : List String) : ℚ :=
  links.foldl
    (fun acc s =>
      if 0 < outbound_counts edges s then
        acc + ranks s / (outbound_counts edges s : ℚ)
      else acc)
    0

/-- One iteration of the solver: `new_rank = (1 - d) / n + d * incoming_sum`
for every node. -/
def page_rank_step (nodes : List String) (edges : String → List String)
    (d : ℚ) (ranks : String → ℚ) : String → ℚ :=
  fun t =>
    (1 - d) / (nodes.length : ℚ) +
      d * incoming_sum edges ranks (incoming_links nodes edges t)

/-- `average_error = np.mean([abs(new - old)/old for node in nodes])`:
the mean over the node list of the per-node relative error. -/
def average_error (nodes : List String) (old_ranks new_ranks : String → ℚ) : ℚ :=
  ((nodes.map fun t => |new_ranks t - old_ranks t| / old_ranks t).sum) /
    (nodes.length : ℚ)

/-- The `while not converged` loop, indexed by fuel.  Each pass computes the
next rank vector, and stops (returning it) exactly when the average relative
error drops below `tol`; otherwise it continues from the new vector.  `none`
means the loop has not terminated within `fuel` iterations — the Python
source has no iteration cap, so its loop terminates on an input iff
some fuel makes this return `some`. -/
def page_rank_loop (nodes : List String) (edges : String → List String)
    (d tol : ℚ) : Nat → (String → ℚ) → Option (String → ℚ)
  | 0, _ => none
  | fuel + 1, ranks =>
      let new_ranks := page_rank_step nodes edges d ranks
      if average_error nodes ranks new_ranks < tol then some new_ranks
      else page_rank_loop nodes edges d tol fuel new_ranks

/-- `compute_page_rank(nodes, edges, d, tol)`: run the iteration from the
uniform vector (fuel-indexed, see `page_rank_loop`). -/
def compute_page_rank (nodes : List String) (edges : String → List String)
    (d tol : ℚ) (fuel : Nat) : Option (String → ℚ) :=
  page_rank_loop nodes edges d tol fuel (init_ranks nodes.length)

/-- The Python default damping factor `d = 0.85`. -/
def default_d : ℚ := 85 / 100

/-- The Python default tolerance `tol = 0.005`. -/
def default_tol : ℚ := 5 / 1000

/-- The solver terminates on the given input iff some number of iterations
makes the loop stop. -/
def compute_page_rank_terminates (nodes : List String)
    (edges : String → List String) (d tol : ℚ) : Prop :=
  ∃ fuel, (compute_page_rank nodes edges d tol fuel).isSome

/-- The rank vector after `k` iterations of the solver, starting from the
uniform initial vector. -/
def ranks_seq (nodes : List String) (edges : String → List String) (d : ℚ)
    (k : Nat) : String → ℚ :=
  (page_rank_step nodes edges d)^[k] (init_ranks nodes.length)

/-- The `average_error < tol` test as the interpreter evaluates it.
`average_error` is `np.mean` of the per-node list; `np.mean` of an *empty*
list is `nan`, and every `nan < tol` comparison is `False`, so the test
passes iff the node list is nonempty and its mean relative error is below
`tol`.  (On a nonempty list the mean is the real number `average_error`, so
the first conjunct is vacuous there.) -/
def convergence_test (nodes : List String) (old_ranks new_ranks : String → ℚ)
    (tol : ℚ) : Prop :=
  nodes ≠ [] ∧ average_error nodes old_ranks new_ranks < tol

instance (nodes : List String) (old_ranks new_ranks : String → ℚ) (tol : ℚ) :
    Decidable (convergence_test nodes old_ranks new_ranks tol) :=
  inferInstanceAs
    (Decidable (nodes ≠ [] ∧ average_error nodes old_ranks new_ranks < tol))

/-- The `while not converged` loop with the full `np.mean` semantics of the
convergence test (`convergence_test`), covering the empty node list as well;
`page_rank_loop` is its specialisation to nonempty node lists
(`page_rank_loop_py_eq_loop`). -/
def page_rank_loop_py (nodes : List String) (edges : String → List String)
    (d tol : ℚ) : Nat → (String → ℚ) → Option (String → ℚ)
  | 0, _ => none
  | fuel + 1, ranks =>
      let new_ranks := page_rank_step nodes edges d ranks
      if convergence_test nodes ranks new_ranks tol then some new_ranks
      else page_rank_loop_py nodes edges d tol fuel new_ranks

/-- `compute_page_rank` under the full `np.mean` semantics of the
convergence test, as `analyze_bucket` invokes it (any node list, including
the empty one). -/
def compute_page_rank_py (nodes : List String) (edges : String → List String)
    (d tol : ℚ) (fuel : Nat) : Option (String → ℚ) :=
  page_rank_loop_py nodes edges d tol fuel (init_ranks nodes.length)

/-! ### Structural lemmas about the incoming-link index and the update -/

lemma foldl_append_incoming (s : String) (l : List String)
    (acc : String → List String) (x : String) :
    (l.foldl (append_incoming s) acc) x = acc x ++ List.replicate (l.count x) s := by
  induction l generalizing acc with
  | nil => simp
  | cons t l ih =>
      rw [List.foldl_cons, ih]
      unfold append_incoming
      by_cases hx : x = t
      · subst hx
        rw [if_pos rfl, List.count_cons_self, List.append_assoc,
          List.singleton_append, ← List.replicate_succ]
      · rw [if_neg hx, List.count_cons_of_ne hx]

lemma incoming_links_foldl_eq (edges : String → List String) (nodes : List String) :
    ∀ (acc : String → List String) (x : String),
      (nodes.foldl (fun acc s => (edges s).foldl (append_incoming s) acc) acc) x
        = acc x ++ nodes.flatMap (fun s => List.replicate ((edges s).count x) s) := by
  induction nodes with
  | nil => intro acc x; simp
  | cons s ns ih =>
      intro acc x
      rw [List.foldl_cons, ih, foldl_append_incoming, List.flatMap_cons,
        List.append_assoc]

/-- The incoming-link index records, for each target, each source once per
occurrence of the target in that source's outlink list, in node order. -/
lemma incoming_links_eq (nodes : List String) (edges : String → List String)
    (x : String) :
    incoming_links nodes edges x
      = nodes.flatMap (fun s => List.replicate ((edges s).count x) s) := by
  unfold incoming_links
  rw [incoming_links_foldl_eq]
  simp

lemma incoming_links_length (nodes : List String) (edges : String → List String)
    (x : String) :
    (incoming_links nodes edges x).length
      = (nodes.map fun s => (edges s).count x).sum := by
  rw [incoming_links_eq, List.length_flatMap]
  simp [Function.comp_def]

lemma incoming_sum_foldl_eq (edges : String → List String) (ranks : String → ℚ)
    (links : List String) :
    ∀ acc : ℚ,
      links.foldl
          (fun acc s =>
            if 0 < outbound_counts edges s then
              acc + ranks s / (outbound_counts edges s : ℚ)
            else acc)
          acc
        = acc + ((links.filter fun s => decide (0 < (edges s).length)).map
            fun s => ranks s / ((edges s).length : ℚ)).sum := by
  induction links with
  | nil => intro acc; simp
  | cons s l ih =>
      intro acc
      rw [List.foldl_cons]
      by_cases h : 0 < (edges s).length
      · rw [if_pos (by simpa [outbound_counts] using h)]
        rw [ih, List.filter_cons_of_pos (by simpa using h), List.map_cons,
          List.sum_cons, outbound_counts, add_assoc]
      · rw [if_neg (by simpa [outbound_counts] using h)]
        rw [ih, List.filter_cons_of_neg (by simpa using h)]

/-- `incoming_sum` is the sum of `rank[s] / outDegree[s]` over the sources of
positive out-degree, the zero-out-degree ones omitted. -/
lemma incoming_sum_eq (edges : String → List String) (ranks : String → ℚ)
    (links : List String) :
    incoming_sum edges ranks links
      = ((links.filter fun s => decide (0 < (edges s).length)).map
          fun s => ranks s / ((edges s).length : ℚ)).sum := by
  unfold incoming_sum
  rw [incoming_sum_foldl_eq, zero_add]

/-! ### Positivity of the rank vectors -/

lemma incoming_sum_nonneg (edges : String → List String) (ranks : String → ℚ)
    (links : List String) (h : ∀ s, 0 ≤ ranks s) :
    0 ≤ incoming_sum edges ranks links := by
  rw [incoming_sum_eq]
  apply List.sum_nonneg
  intro x hx
  obtain ⟨s, _, rfl⟩ := List.mem_map.mp hx
  exact div_nonneg (h s) (Nat.cast_nonneg _)

lemma page_rank_step_lower (nodes : List String) (edges : String → List String)
    (d : ℚ) (ranks : String → ℚ) (hd0 : 0 ≤ d) (hr : ∀ s, 0 ≤ ranks s)
    (t : String) :
    (1 - d) / (nodes.length : ℚ) ≤ page_rank_step nodes edges d ranks t := by
  unfold page_rank_step
  exact le_add_of_nonneg_right
    (mul_nonneg hd0 (incoming_sum_nonneg edges ranks _ hr))

lemma ranks_seq_pos (nodes : List String) (edges : String → List String)
    (d : ℚ) (hn : 1 ≤ nodes.length) (hd0 : 0 ≤ d) (hd1 : d < 1) :
    ∀ k t, 0 < ranks_seq nodes edges d k t := by
  have hnQ : (0 : ℚ) < (nodes.length : ℚ) := by exact_mod_cast hn
  intro k
  induction k with
  | zero =>
      intro t
      simp only [ranks_seq, Function.iterate_zero_apply, init_ranks]
      positivity
  | succ k ih =>
      intro t
      have hstep : (1 - d) / (nodes.length : ℚ)
          ≤ ranks_seq nodes edges d (k + 1) t := by
        have : ranks_seq nodes edges d (k + 1)
            = page_rank_step nodes edges d (ranks_seq nodes edges d k) := by
          simp only [ranks_seq, Function.iterate_succ_apply']
        rw [this]
        exact page_rank_step_lower nodes edges d _ hd0 (fun s => (ih s).le) t
      have : (0 : ℚ) < (1 - d) / (nodes.length : ℚ) :=
        div_pos (by linarith) hnQ
      linarith

lemma average_error_nonneg (nodes : List String) (old_ranks new_ranks : String → ℚ)
    (h : ∀ t, 0 < old_ranks t) :
    0 ≤ average_error nodes old_ranks new_ranks := by
  unfold average_error
  apply div_nonneg _ (Nat.cast_nonneg _)
  apply List.sum_nonneg
  intro x hx
  obtain ⟨t, _, rfl⟩ := List.mem_map.mp hx
  exact div_nonneg (abs_nonneg _) (h t).le

/-! ### Behaviour of the iteration loop -/

lemma page_rank_loop_succ (nodes : List String) (edges : String → List String)
    (d tol : ℚ) (fuel : Nat) (ranks : String → ℚ) :
    page_rank_loop nodes edges d tol (fuel + 1) ranks
      = if average_error nodes ranks (page_rank_step nodes edges d ranks) < tol
        then some (page_rank_step nodes edges d ranks)
        else page_rank_loop nodes edges d tol fuel
          (page_rank_step nodes edges d ranks) := rfl

lemma page_rank_loop_py_succ (nodes : List String) (edges : String → List String)
    (d tol : ℚ) (fuel : Nat) (ranks : String → ℚ) :
    page_rank_loop_py nodes edges d tol (fuel + 1) ranks
      = if convergence_test nodes ranks (page_rank_step nodes edges d ranks) tol
        then some (page_rank_step nodes edges d ranks)
        else page_rank_loop_py nodes edges d tol fuel
          (page_rank_step nodes edges d ranks) := rfl

/-- On an empty node list the convergence test never passes (`np.mean([])`
is `nan` and `nan < tol` is `False`), so the `while` loop never exits: no
amount of fuel makes it return. -/
lemma page_rank_loop_py_nil (edges : String → List String) (d tol : ℚ) :
    ∀ (fuel : Nat) (r : String → ℚ),
      page_rank_loop_py [] edges d tol fuel r = none := by
  intro fuel
  induction fuel with
  | zero => intro r; rfl
  | succ fuel ih =>
      intro r
      rw [page_rank_loop_py_succ, if_neg fun hc => hc.1 rfl]
      exact ih _

/-- On a nonempty node list the full convergence test reduces to the mean
comparison, so `page_rank_loop_py` and `page_rank_loop` agree — the loop
lemmas stated over `page_rank_loop` describe the interpreter's behaviour on
every nonempty graph. -/
lemma page_rank_loop_py_eq_loop (nodes : List String)
    (edges : String → List String) (d tol : ℚ) (h : nodes ≠ []) :
    ∀ (fuel : Nat) (r : String → ℚ),
      page_rank_loop_py nodes edges d tol fuel r
        = page_rank_loop nodes edges d tol fuel r := by
  intro fuel
  induction fuel with
  | zero => intro r; rfl
  | succ fuel ih =>
      intro r
      rw [page_rank_loop_py_succ, page_rank_loop_succ]
      by_cases hc : average_error nodes r (page_rank_step nodes edges d r) < tol
      · rw [if_pos ⟨h, hc⟩, if_pos hc]
      · rw [if_neg fun hct => hc hct.2, if_neg hc]
        exact ih _

/-- With a non-positive tolerance the loop can never stop: the mean of
absolute relative errors is non-negative as long as the previous vector is
positive, and positivity is preserved by the update. -/
lemma page_rank_loop_zero_tol (nodes : List String) (edges : String → List String)
    (d : ℚ) (hn : 1 ≤ nodes.length) (hd0 : 0 ≤ d) (hd1 : d < 1) :
    ∀ (fuel : Nat) (r : String → ℚ), (∀ t, 0 < r t) →
      page_rank_loop nodes edges d 0 fuel r = none := by
  have hnQ : (0 : ℚ) < (nodes.length : ℚ) := by exact_mod_cast hn
  intro fuel
  induction fuel with
  | zero => intro r _; rfl
  | succ fuel ih =>
      intro r hr
      have hnew : ∀ t, 0 < page_rank_step nodes edges d r t := by
        intro t
        have hlb := page_rank_step_lower nodes edges d r hd0 (fun s => (hr s).le) t
        have : (0 : ℚ) < (1 - d) / (nodes.length : ℚ) :=
          div_pos (by linarith) hnQ
        linarith
      have herr : ¬ average_error nodes r (page_rank_step nodes edges d r) < 0 :=
        not_lt.mpr (average_error_nonneg nodes r _ hr)
      rw [page_rank_loop_succ, if_neg herr]
      exact ih _ hnew

/-- The loop stops within `fuel` passes exactly at the first iteration whose
average relative error drops below the tolerance, returning that iteration's
vector. -/
lemma page_rank_loop_eq_some_iff (nodes : List String)
    (edges : String → List String) (d tol : ℚ) :
    ∀ (fuel : Nat) (r v : String → ℚ),
      page_rank_loop nodes edges d tol fuel r = some v ↔
        ∃ k, k < fuel ∧
          (∀ j, j < k →
            ¬ average_error nodes ((page_rank_step nodes edges d)^[j] r)
                ((page_rank_step nodes edges d)^[j + 1] r) < tol) ∧
          average_error nodes ((page_rank_step nodes edges d)^[k] r)
              ((page_rank_step nodes edges d)^[k + 1] r) < tol ∧
          v = (page_rank_step nodes edges d)^[k + 1] r := by
  intro fuel
  induction fuel with
  | zero =>
      intro r v
      simp [page_rank_loop]
  | succ fuel ih =>
      intro r v
      rw [page_rank_loop_succ]
      by_cases hc : average_error nodes r (page_rank_step nodes edges d r) < tol
      · rw [if_pos hc]
        constructor
        · intro h
          refine ⟨0, Nat.succ_pos _, fun j hj => absurd hj (Nat.not_lt_zero j), ?_, ?_⟩
          · simpa using hc
          · simpa using (Option.some.inj h).symm
        · rintro ⟨k, _, hprev, _, rfl⟩
          cases k with
          | zero => simp
          | succ k => exact absurd (by simpa using hc) (hprev 0 (Nat.succ_pos k))
      · rw [if_neg hc]
        rw [ih]
        constructor
        · rintro ⟨k, hk, hprev, hcond, rfl⟩
          refine ⟨k + 1, by omega, ?_, ?_, ?_⟩
          · intro j hj
            cases j with
            | zero => simpa using hc
            | succ j =>
                have := hprev j (by omega)
                simpa [Function.iterate_succ_apply] using this
          · simpa [Function.iterate_succ_apply] using hcond
          · simp [Function.iterate_succ_apply]
        · rintro ⟨k, hk, hprev, hcond, rfl⟩
          cases k with
          | zero => exact absurd (by simpa using hcond) hc
          | succ k =>
              refine ⟨k, by omega, ?_, ?_, ?_⟩
              · intro j hj
                have := hprev (j + 1) (by omega)
                simpa [Function.iterate_succ_apply] using this
              · simpa [Function.iterate_succ_apply] using hcond
              · simp [Function.iterate_succ_apply]

/-! ### Claims about the solver -/

/-- Claim C2: with at least one node and an outlink list for every node, the
solver initialises every node's rank to `1/n`, and one iteration sets node
`t`'s new rank to `(1-d)/n + d * Σ rank[s]/outDegree[s]` over the sources
`s` in the incoming-link list of `t` that have positive out-degree;
zero-out-degree sources are omitted from the sum. -/
theorem compute_page_rank_update_formula (nodes : List String)
    (edges : String → List String) (d : ℚ) (ranks : String → ℚ) (t : String)
    (hn : 1 ≤ nodes.length) (ht : t ∈ nodes) :
    init_ranks nodes.length t = 1 / (nodes.length : ℚ) ∧
    page_rank_step nodes edges d ranks t
      = (1 - d) / (nodes.length : ℚ) +
        d * (((incoming_links nodes edges t).filter
              fun s => decide (0 < (edges s).length)).map
            fun s => ranks s / ((edges s).length : ℚ)).sum := by
  refine ⟨rfl, ?_⟩
  unfold page_rank_step
  rw [incoming_sum_eq]

/-- Witness for `compute_page_rank_update_formula` on the one-node self-loop
graph. -/
theorem compute_page_rank_update_formula_witness :
    1 ≤ (["A"] : List String).length ∧ "A" ∈ (["A"] : List String) ∧
      (init_ranks (["A"] : List String).length "A"
          = 1 / ((["A"] : List String).length : ℚ) ∧
        page_rank_step ["A"] (fun _ => ["A"]) (85 / 100) (init_ranks 1) "A"
          = (1 - 85 / 100) / (((["A"] : List String).length : ℚ)) +
            (85 / 100) *
              (((incoming_links ["A"] (fun _ => ["A"]) "A").filter
                  fun s => decide (0 < ((fun _ => ["A"] : String → List String) s).length)).map
                fun s => init_ranks 1 s /
                  (((fun _ => ["A"] : String → List String) s).length : ℚ)).sum) :=
  ⟨by decide, by decide,
    compute_page_rank_update_formula ["A"] (fun _ => ["A"]) (85 / 100)
      (init_ranks 1) "A" (by decide) (by decide)⟩

/-- Claim C10: with `n ≥ 1` nodes and damping factor `0 ≤ d < 1`, the rank
vector is `1/n` everywhere after initialisation, strictly positive after
every iteration, and bounded below by `(1-d)/n` after each iteration; hence
the divisions by `page_ranks[node]` in the convergence test and the guarded
divisions by `outbound_counts` never divide by zero. -/
theorem page_ranks_positive (nodes : List String)
    (edges : String → List String) (d : ℚ) (hn : 1 ≤ nodes.length)
    (hd0 : 0 ≤ d) (hd1 : d < 1) :
    (∀ t, ranks_seq nodes edges d 0 t = 1 / (nodes.length : ℚ)) ∧
    (∀ k t, 0 < ranks_seq nodes edges d k t) ∧
    (∀ k t, (1 - d) / (nodes.length : ℚ) ≤ ranks_seq nodes edges d (k + 1) t) := by
  refine ⟨fun t => rfl, ranks_seq_pos nodes edges d hn hd0 hd1, ?_⟩
  intro k t
  have hpos := ranks_seq_pos nodes edges d hn hd0 hd1 k
  have : ranks_seq nodes edges d (k + 1)
      = page_rank_step nodes edges d (ranks_seq nodes edges d k) := by
    simp only [ranks_seq, Function.iterate_succ_apply']
  rw [this]
  exact page_rank_step_lower nodes edges d _ hd0 (fun s => (hpos s).le) t

/-- Witness for `page_ranks_positive` on the one-node self-loop graph. -/
theorem page_ranks_positive_witness :
    0 < ranks_seq ["A"] (fun _ => ["A"]) (85 / 100) 2 "A" :=
  (page_ranks_positive ["A"] (fun _ => ["A"]) (85 / 100) (by decide)
    (by norm_num) (by norm_num)).2.1 2 "A"

/-- Claim C1 (code bug): the solver does *not* terminate on every input.
`compute_page_rank` has no iteration cap and no convergence-not-reached
signal: its only exit is the mean relative error dropping below `tol`.  On
the one-node self-loop graph with `tol = 0` (an unattainable tolerance, the
case an iteration cap exists to handle) the `while not converged` loop never
stops: no amount of fuel makes the embedded loop return. -/
theorem compute_page_rank_no_iteration_cap :
    ¬ compute_page_rank_terminates ["A"] (fun _ => ["A"]) default_d 0 := by
  rintro ⟨fuel, hfuel⟩
  rw [compute_page_rank, page_rank_loop_zero_tol ["A"] (fun _ => ["A"])
    default_d (by decide) (by norm_num [default_d]) (by norm_num [default_d])
    fuel (init_ranks (["A"] : List String).length)
    (fun t => by norm_num [init_ranks])] at hfuel
  exact Bool.noConfusion hfuel

/-- Claim C3: the loop's stopping rule is exactly the per-node mean
relative-error criterion: `compute_page_rank` returns a vector within `fuel`
passes iff some iteration `k` is the first whose mean of
`|newRank[t] - rank[t]| / rank[t]` over the nodes falls below `tol`, and the
returned vector is that iteration's; no other criterion (such as an
aggregate-sum delta) plays any role. -/
theorem compute_page_rank_stops_iff_mean_error_below_tol (nodes : List String)
    (edges : String → List String) (d tol : ℚ) (fuel : Nat) (v : String → ℚ) :
    compute_page_rank nodes edges d tol fuel = some v ↔
      ∃ k, k < fuel ∧
        (∀ j, j < k →
          ¬ average_error nodes (ranks_seq nodes edges d j)
              (ranks_seq nodes edges d (j + 1)) < tol) ∧
        average_error nodes (ranks_seq nodes edges d k)
            (ranks_seq nodes edges d (k + 1)) < tol ∧
        v = ranks_seq nodes edges d (k + 1) := by
  simpa [compute_page_rank, ranks_seq] using
    page_rank_loop_eq_some_iff nodes edges d tol fuel
      (init_ranks nodes.length) v

/-! ### Degree-sum bookkeeping (claim C4) -/

lemma sum_count_eq_length (l : List String) (T : Finset String)
    (hT : ∀ x ∈ l, x ∈ T) :
    ∑ t ∈ T, l.count t = l.length := by
  rw [← List.sum_toFinset_count_eq_length]
  exact (Finset.sum_subset (fun x hx => hT x (List.mem_toFinset.mp hx))
    (fun x _ hx =>
      List.count_eq_zero.mpr fun h => hx (List.mem_toFinset.mpr h))).symm

lemma sum_counts_over_targets (edges : String → List String) :
    ∀ (nodes : List String) (T : Finset String),
      (∀ s ∈ nodes, ∀ x ∈ edges s, x ∈ T) →
      ∑ t ∈ T, (nodes.map fun s => (edges s).count t).sum
        = (nodes.map fun s => (edges s).length).sum := by
  intro nodes
  induction nodes with
  | nil => intro T _; simp
  | cons s ns ih =>
      intro T hT
      simp only [List.map_cons, List.sum_cons]
      rw [Finset.sum_add_distrib,
        ih T fun s2 hs2 => hT s2 (List.mem_cons_of_mem _ hs2),
        sum_count_eq_length (edges s) T (hT s (List.mem_cons_self _ _))]

/-- A one-node graph with one dangling edge (target outside the corpus),
exactly what the pipeline builds for a page linking to an external URL. -/
def dangling_edges : String → List String :=
  fun s => if s = "A" then ["B"] else []

/-- Claim C4 is false as stated: on a graph with a dangling edge, the sum of
out-degrees (= 1 = total recorded edges) differs from the sum of
`len(incomingLinks[t])` restricted to corpus nodes `t` (= 0, since the only
recorded target `B` is not a corpus node). -/
theorem degree_sum_restricted_counterexample :
    ¬ ((["A"].map fun n => (dangling_edges n).length).sum
        = (["A"].map fun t =>
            (incoming_links ["A"] dangling_edges t).length).sum) := by
  decide

/-- Claim C4, amended: the sum of out-degrees over all nodes equals the total
number of recorded edges, and both equal the sum of `len(incomingLinks[t])`
over *all* recorded targets `t` (corpus nodes and dangling targets alike);
the sum restricted to corpus nodes only counts edges whose target is in the
corpus. -/
theorem degree_sum_invariant_amended (nodes : List String)
    (edges : String → List String) :
    (nodes.map fun n => (edges n).length).sum = (nodes.flatMap edges).length ∧
    (nodes.flatMap edges).length
      = ∑ t ∈ (nodes.flatMap edges).toFinset,
          (incoming_links nodes edges t).length := by
  have h1 : (nodes.flatMap edges).length
      = (nodes.map fun n => (edges n).length).sum := by
    rw [List.length_flatMap]
    simp [Function.comp_def]
  refine ⟨h1.symm, ?_⟩
  have hmem : ∀ s ∈ nodes, ∀ x ∈ edges s, x ∈ (nodes.flatMap edges).toFinset :=
    fun s hs x hx => List.mem_toFinset.mpr (List.mem_flatMap.mpr ⟨s, hs, hx⟩)
  calc (nodes.flatMap edges).length
      = (nodes.map fun n => (edges n).length).sum := h1
    _ = ∑ t ∈ (nodes.flatMap edges).toFinset,
          (nodes.map fun s => (edges s).count t).sum :=
        (sum_counts_over_targets edges nodes _ hmem).symm
    _ = ∑ t ∈ (nodes.flatMap edges).toFinset,
          (incoming_links nodes edges t).length :=
        Finset.sum_congr rfl fun t _ => (incoming_links_length nodes edges t).symm

/-! ### Ingestion pipeline (`download_helper`, `process_blob_content`,
stage 1 and stage 2 of `analyze_bucket`) -/

/-- A GCS blob as the script sees it: a name, and the outcome of calling
`download_as_text()` on it — either the content, or a raised exception. -/
structure Blob where
  name : String
  download_as_text : Except String String

/-- `blob.name.endswith('.html')`, expressed as a suffix test on the
character list so that concrete instances evaluate in the kernel. -/
def ends_with_html (s : String) : Bool :=
  (".html".toList).isSuffixOf s.toList

/-- `download_helper`: returns `None` for a non-HTML blob, otherwise the pair
`(blob.name, blob.download_as_text())`.  There is no exception handling: if
the download raises, the exception propagates out of the helper. -/
def download_helper (blob : Blob) : Except String (Option (String × String)) :=
  if ends_with_html blob.name = false then Except.ok none
  else blob.download_as_text.map fun content => some (blob.name, content)

/-- `results = list(downloader.map(download_helper, all_blobs))`: collect
every worker result in input order; the first raised exception propagates
out of the `list(...)` call (and hence out of `analyze_bucket`). -/
def download_results : List Blob → Except String (List (Option (String × String)))
  | [] => Except.ok []
  | b :: bs =>
      match download_helper b with
      | Except.error e => Except.error e
      | Except.ok r => (download_results bs).map fun rest => r :: rest

/-- `blobs_to_process = [r for r in results if r]`: drop the `None` entries
(the non-HTML blobs) from the collected results. -/
def downloaded_blobs (blobs : List Blob) : Except String (List (String × String)) :=
  (download_results blobs).map fun results => results.filterMap id

/-- A blob of the fetch stage whose download raises. -/
def failing_blob : Blob := ⟨"x.html", Except.error "fetch failed"⟩

/-- A blob of the fetch stage whose download succeeds. -/
def ok_blob : Blob := ⟨"y.html", Except.ok "content"⟩

/-- Claim C6 is false as stated: a fetch failure is *not* isolated.  With a
failing blob followed by a healthy one, the download stage propagates the
exception and aborts instead of dropping the failing identifier and
returning the remaining one. -/
theorem fetch_failure_counterexample :
    downloaded_blobs [failing_blob, ok_blob] = Except.error "fetch failed" ∧
      downloaded_blobs [failing_blob, ok_blob]
        ≠ Except.ok [("y.html", "content")] := by
  refine ⟨rfl, ?_⟩
  intro h
  rw [show downloaded_blobs [failing_blob, ok_blob]
      = Except.error "fetch failed" from rfl] at h
  exact Except.noConfusion h

/-- Claim C6, amended: a fetch failure is not isolated and is never recorded
as a warning — `download_helper` has no exception handling, so the first
failing `.html` download makes the whole stage (and the run) abort with that
exception, regardless of how many healthy blobs follow; only non-HTML blobs
are dropped (as `None`) from the batch. -/
theorem fetch_failure_aborts_run (pre post : List Blob) (b : Blob) (e : String)
    (hname : ends_with_html b.name = true)
    (hfetch : b.download_as_text = Except.error e)
    (hpre : ∀ b2 ∈ pre, ∃ r, download_helper b2 = Except.ok r) :
    downloaded_blobs (pre ++ b :: post) = Except.error e := by
  unfold downloaded_blobs
  suffices h : download_results (pre ++ b :: post) = Except.error e by
    rw [h]; rfl
  induction pre with
  | nil =>
      simp only [List.nil_append]
      unfold download_results download_helper
      rw [hname, hfetch]
      rfl
  | cons b2 pre ih =>
      obtain ⟨r, hr⟩ := hpre b2 (List.mem_cons_self _ _)
      have htail := ih fun b3 h3 => hpre b3 (List.mem_cons_of_mem _ h3)
      simp only [List.cons_append]
      unfold download_results
      rw [hr, htail]
      rfl

/-- Witness for `fetch_failure_aborts_run`: one healthy blob, then the
failing one, then another healthy one. -/
theorem fetch_failure_aborts_run_witness :
    downloaded_blobs [ok_blob, failing_blob, Blob.mk "z.html" (Except.ok "c2")]
      = Except.error "fetch failed" :=
  fetch_failure_aborts_run [ok_blob] [Blob.mk "z.html" (Except.ok "c2")]
    failing_blob "fetch failed" (by decide) rfl
    (by
      intro b2 hb2
      rw [List.mem_singleton] at hb2
      subst hb2
      exact ⟨some ("y.html", "content"), rfl⟩)

/-- `process_blob_content`: the worker for the parse stage.  The HTML
parsing capability (BeautifulSoup) is external to this repository, so a
document's content is modelled by the outcome of extracting its anchor
`href` attribute values: either the list of raw href strings in document
order, or a parse exception.  The worker records the extracted values
verbatim (`[a['href'] for a in soup.find_all('a', href=True)]` applies no
transformation to them) and its `except` clause turns any parse exception
into the pair `(name, [])`. -/
def process_blob_content (args : String × Except String (List String)) :
    String × List String :=
  match args with
  | (nme, Except.ok hrefs) => (nme, hrefs)
  | (nme, Except.error _) => (nme, [])

/-- `parsed_results = list(parser.map(process_blob_content, blobs_to_process))`:
the parse stage maps the worker over the batch; the worker is total, so the
stage always returns one pair per input document. -/
def parse_stage (inputs : List (String × Except String (List String))) :
    List (String × List String) :=
  inputs.map process_blob_content

/-- Claim C7 is false as stated: no link normalization is applied.  For a
document `dir/page.html` whose extracted targets are `/foo.html` (root
relative) and `bar.html` (relative), the recorded outlinks are the raw
strings, not the normalized forms `foo.html` and `dir/bar.html` that the
claim prescribes. -/
theorem link_normalization_counterexample :
    (process_blob_content
        ("dir/page.html", Except.ok ["/foo.html", "bar.html"])).2
      = ["/foo.html", "bar.html"] ∧
    (process_blob_content
        ("dir/page.html", Except.ok ["/foo.html", "bar.html"])).2
      ≠ ["foo.html", "dir/bar.html"] :=
  ⟨rfl, by decide⟩

/-- Claim C7, amended: every successfully extracted target is recorded
verbatim — the leading slash of a root-relative target is kept, and relative
targets are not resolved against the parent directory of the referencing
identifier. -/
theorem links_recorded_verbatim (nme : String) (hrefs : List String) :
    process_blob_content (nme, Except.ok hrefs) = (nme, hrefs) := rfl

/-- Claim C8: a parse failure is isolated.  The failing document comes back
paired with an empty outlink list, in its batch position, and the rest of
the batch is processed normally — the parse stage is total, so the failure
cannot escalate. -/
theorem parse_failure_isolated
    (pre post : List (String × Except String (List String)))
    (nme : String) (e : String) :
    process_blob_content (nme, Except.error e) = (nme, []) ∧
    parse_stage (pre ++ (nme, Except.error e) :: post)
      = parse_stage pre ++ (nme, []) :: parse_stage post := by
  exact ⟨rfl, by simp [parse_stage, process_blob_content]⟩

/-! ### Top-5 ranking (`sorted(page_ranks.items(), key=lambda x: x[1],
reverse=True)[:5]`) -/

/-- The order Python's `sorted(..., key=lambda x: x[1], reverse=True)` sorts
by: `a` may come before `b` iff `a`'s score is at least `b`'s. -/
def by_score_desc (a b : String × ℚ) : Prop := b.2 ≤ a.2

instance : DecidableRel by_score_desc :=
  fun a b => inferInstanceAs (Decidable (b.2 ≤ a.2))

instance : IsTotal (String × ℚ) by_score_desc := ⟨fun a b => le_total b.2 a.2⟩

instance : IsTrans (String × ℚ) by_score_desc :=
  ⟨fun _ _ _ h1 h2 => le_trans h2 h1⟩

/-- Python's `sorted` is a stable sort; a stable sort is extensionally an
insertion sort that inserts each element before the first later-placed
element it may precede, so the script's top-5 expression is embedded as the
first five entries of that insertion sort. -/
def top_five_pageranks (items : List (String × ℚ)) : List (String × ℚ) :=
  (List.insertionSort by_score_desc items).take 5

lemma filter_orderedInsert (x : String × ℚ) (l : List (String × ℚ)) (c : ℚ) :
    (List.orderedInsert by_score_desc x l).filter (fun y => decide (y.2 = c))
      = if x.2 = c then x :: l.filter (fun y => decide (y.2 = c))
        else l.filter (fun y => decide (y.2 = c)) := by
  induction l with
  | nil =>
      by_cases hx : x.2 = c <;> simp [List.orderedInsert, hx]
  | cons y l ih =>
      rw [List.orderedInsert]
      by_cases hr : by_score_desc x y
      · rw [if_pos hr]
        by_cases hx : x.2 = c <;> simp [List.filter_cons, hx]
      · rw [if_neg hr]
        by_cases hx : x.2 = c
        · have hy : ¬ (y.2 = c) := fun h => hr (le_of_eq (h.trans hx.symm))
          simp [List.filter_cons, hx, hy, ih]
        · simp [List.filter_cons, hx, ih]

/-- Stability of the embedded sort: the elements of any fixed score appear in
the output in exactly their input order. -/
lemma filter_insertionSort_by_score (items : List (String × ℚ)) (c : ℚ) :
    (List.insertionSort by_score_desc items).filter (fun y => decide (y.2 = c))
      = items.filter (fun y => decide (y.2 = c)) := by
  induction items with
  | nil => rfl
  | cons x l ih =>
      rw [List.insertionSort, filter_orderedInsert, ih]
      by_cases hx : x.2 = c <;> simp [List.filter_cons, hx]

/-- Claim C9 is false as stated: ties are *not* broken by ascending node
identifier.  With the rank mapping insertion-ordered as `B` before `A` and
equal scores, the script's top-5 keeps `B` first (Python's sort is stable),
not the identifier-ascending order `A` first. -/
theorem top_five_tie_counterexample :
    top_five_pageranks [("B", 1), ("A", 1)] = [("B", 1), ("A", 1)] ∧
      top_five_pageranks [("B", 1), ("A", 1)] ≠ [("A", 1), ("B", 1)] := by
  constructor
  · norm_num [top_five_pageranks, List.insertionSort, List.orderedInsert,
      by_score_desc]
  · norm_num [top_five_pageranks, List.insertionSort, List.orderedInsert,
      by_score_desc]
    decide

/-- Claim C9, amended: the top-5 selection sorts the rank items in
non-increasing score order, breaking score ties by the insertion order of
the rank mapping (not by ascending identifier), and returns the first five
entries (fewer when fewer exist); the output is a deterministic function of
the item list, so identical runs give identical orderings. -/
theorem top_five_stable_sort_spec (items : List (String × ℚ)) :
    (List.insertionSort by_score_desc items).Perm items ∧
    List.Sorted by_score_desc (List.insertionSort by_score_desc items) ∧
    (∀ c : ℚ,
      (List.insertionSort by_score_desc items).filter (fun y => decide (y.2 = c))
        = items.filter (fun y => decide (y.2 = c))) ∧
    top_five_pageranks items = (List.insertionSort by_score_desc items).take 5 ∧
    (top_five_pageranks items).length = min 5 items.length := by
  refine ⟨List.perm_insertionSort _ _, List.sorted_insertionSort _ _,
    filter_insertionSort_by_score items, rfl, ?_⟩
  rw [top_five_pageranks, List.length_take,
    (List.perm_insertionSort by_score_desc items).length_eq]

/-! ### Degree statistics (`get_stats`) and the driver (`analyze_bucket`) -/

/-- The result of `get_stats`: either the empty dict (empty input) or the
record of average, median, max, min and the four quintile cut points (the
script formats the quintiles as strings; they are modelled by their
values). -/
inductive StatsResult where
  | empty : StatsResult
  | stats (avg median maxv minv : ℚ) (quintiles : List ℚ) : StatsResult

/-- An ascending sorted copy of the data, as `np.percentile` computes one. -/
def sorted_values (data : List ℚ) : List ℚ :=
  List.insertionSort (· ≤ ·) data

/-- `np.percentile(data, q)` with the default linear interpolation:
the value at fractional position `q/100 * (n-1)` of the sorted data. -/
def np_percentile (data : List ℚ) (q : ℚ) : ℚ :=
  let s := sorted_values data
  let pos := q / 100 * ((s.length : ℚ) - 1)
  let frac := pos - (⌊pos⌋ : ℚ)
  let a := s.getD (⌊pos⌋).toNat 0
  let b := s.getD ((⌊pos⌋).toNat + 1) a
  a + frac * (b - a)

/-- `np.mean`: the sum divided by the length. -/
def np_mean (data : List ℚ) : ℚ := data.sum / (data.length : ℚ)

/-- `np.median`, which equals the 50th linear-interpolation percentile. -/
def np_median (data : List ℚ) : ℚ := np_percentile data 50

/-- `np.max`: the last element of the sorted data. -/
def np_max (data : List ℚ) : ℚ := (sorted_values data).getLastD 0

/-- `np.min`: the first element of the sorted data. -/
def np_min (data : List ℚ) : ℚ := (sorted_values data).headD 0

/-- `get_stats(data)`: `{}` on empty input (`if not data: return {}`),
otherwise the average / median / max / min / quintiles record. -/
def get_stats (data : List ℚ) : StatsResult :=
  if data.isEmpty then StatsResult.empty
  else
    StatsResult.stats (np_mean data) (np_median data) (np_max data)
      (np_min data)
      [np_percentile data 20, np_percentile data 40, np_percentile data 60,
        np_percentile data 80]

/-- Step 3 of `analyze_bucket`: `nodes.append(name)` for each parsed pair. -/
def graph_nodes (parsed : List (String × List String)) : List String :=
  parsed.map Prod.fst

/-- Step 3 of `analyze_bucket`: `edges[name] = links` (a later assignment to
the same name wins); names absent from the batch have no entry, read as `[]`. -/
def graph_edges (parsed : List (String × List String)) : String → List String :=
  fun nme => (((parsed.reverse).find? fun p => p.1 == nme).map Prod.snd).getD []

/-- Step 3 of `analyze_bucket`: `in_counts[link] += 1` per extracted link. -/
def in_counts (parsed : List (String × List String)) (t : String) : Nat :=
  (parsed.map fun p => p.2.count t).sum

/-- Steps 3-6 of `analyze_bucket` after the parse stage: build the graph,
compute both degree-statistics blocks, then unconditionally run
`compute_page_rank` (with its default parameters, under the full `np.mean`
convergence-test semantics) and take the top five; `none` means the run has
not returned within `fuel` loop passes. -/
def analyze_bucket_run (parsed : List (String × List String)) (fuel : Nat) :
    Option (StatsResult × StatsResult × List (String × ℚ)) :=
  let nodes := graph_nodes parsed
  let edges := graph_edges parsed
  let out_stats := get_stats (nodes.map fun n => ((edges n).length : ℚ))
  let in_stats := get_stats (nodes.map fun n => (in_counts parsed n : ℚ))
  (compute_page_rank_py nodes edges default_d default_tol fuel).map
    fun pr => (out_stats, in_stats, top_five_pageranks (nodes.map fun n => (n, pr n)))

/-- The driver returns at all on the given batch iff some number of loop
passes makes it return. -/
def analyze_bucket_terminates (parsed : List (String × List String)) : Prop :=
  ∃ fuel, (analyze_bucket_run parsed fuel).isSome

lemma analyze_bucket_run_nil (fuel : Nat) : analyze_bucket_run [] fuel = none := by
  simp only [analyze_bucket_run, compute_page_rank_py, graph_nodes, List.map_nil]
  rw [page_rank_loop_py_nil]
  rfl

/-- Claim C5 is false as stated: on an empty corpus the statistics engine
does return the empty result, but the run is *not* a valid non-error
terminal state — `analyze_bucket` invokes `compute_page_rank`
unconditionally rather than skipping it, and with zero nodes the
convergence test never passes (`np.mean([])` is `nan`, and `nan < tol` is
`False`), so the `while` loop never exits and the run never terminates. -/
theorem empty_corpus_counterexample :
    get_stats ([] : List ℚ) = StatsResult.empty ∧
      ¬ analyze_bucket_terminates [] := by
  refine ⟨rfl, ?_⟩
  rintro ⟨fuel, h⟩
  rw [analyze_bucket_run_nil fuel] at h
  exact Bool.noConfusion h

/-- Claim C5, amended: on an empty corpus `get_stats` returns the empty
result, but the PageRank computation is still entered:
`compute_page_rank`'s convergence test compares `np.mean([])` — that is,
`nan` — against the tolerance, which is always `False`, so its loop never
exits and the run hangs instead of ending in a valid non-error terminal
state. -/
theorem empty_corpus_stats_empty_pagerank_hangs :
    get_stats ([] : List ℚ) = StatsResult.empty ∧
      (∀ fuel, compute_page_rank_py [] (fun _ => []) default_d default_tol fuel
        = none) ∧
      (∀ fuel, analyze_bucket_run [] fuel = none) := by
  refine ⟨rfl, ?_, analyze_bucket_run_nil⟩
  intro fuel
  exact page_rank_loop_py_nil _ default_d default_tol fuel _

end HW2
